import Mathlib

/-!
Verification of the ViRotator transform pipelines.

The repository consists of three small scripts (`rev_comp.py`, `rotate.py`,
`triple.py`) that each parse a FASTA/FASTQ file into an insertion-ordered
mapping from sequence identifier to record, consult a tab-separated hint
table (except for triple), transform each sequence, and write the result
plus a log.  This file embeds the per-sequence transform and log logic of
the three scripts over association lists (which model Python 3 dicts:
insertion-ordered, unique keys) and proves the specification claims.
-/

namespace ViRotator

/-- A parsed sequence record: the sequence characters and, for FASTQ input,
the quality characters (empty for FASTA, where the parser stores no
quality). -/
structure SeqRec where
  seq : List Char
  qual : List Char
deriving Repr, DecidableEq

/-- Python dict lookup on an association list: the value of the first entry
whose key matches, if any (entries have unique keys when produced by the
parsers, so first match is dict lookup). -/
def dlookup {α : Type} (d : List (String × α)) (k : String) : Option α :=
  (d.find? (fun p => p.1 == k)).map (fun p => p.2)

/-- One character of `str.maketrans('ATGC', 'TACG')` as used by
`rev_comp.py`: uppercase A/T/G/C map to their complements, every other
character is unchanged. -/
def complementChar (c : Char) : Char :=
  if c = 'A' then 'T'
  else if c = 'T' then 'A'
  else if c = 'G' then 'C'
  else if c = 'C' then 'G'
  else c

/-- The expression `fileDict[seqId]["seq"].translate(comp)[::-1]` of
`rev_comp.py`: complement each character, then reverse. -/
def revCompSeq (s : List Char) : List Char :=
  (s.map complementChar).reverse

/-- Clamp a Python slice bound to an actual index of a string of length
`len`, following Python semantics: a negative bound counts from the end
(clamped below at 0), a non-negative bound is clamped above at `len`. -/
def pyBound (len : Nat) (i : Int) : Nat :=
  if i < 0 then ((len : Int) + i).toNat else min i.toNat len

/-- Python string slice `s[a:b]` (step 1): the characters with indices in
the half-open range `[pyBound a, pyBound b)`. -/
def pySlice (s : List Char) (a b : Int) : List Char :=
  (s.take (pyBound s.length b)).drop (pyBound s.length a)

namespace RevComp

/-- Function `reverse_complement` of `rev_comp.py`: for each sequence in order, if
its identifier is in the blast dict with strand `"minus"`, replace the
sequence by its reverse complement (and reverse the quality for FASTQ) and
record the identifier; identifiers absent from the blast dict are recorded
and their entries popped from the dict.  Returns the new file dict, the
reverse-complemented identifiers and the not-found identifiers. -/
def reverse_complement : List (String × SeqRec) → List (String × String) → String →
    List (String × SeqRec) × List String × List String
  | [], _, _ => ([], [], [])
  | (seqId, r) :: rest, blastDict, file_type =>
    let res := reverse_complement rest blastDict file_type
    match dlookup blastDict seqId with
    | some strand =>
      if strand = "minus" then
        ((seqId, { seq := revCompSeq r.seq,
                   qual := if file_type = "fastq" then r.qual.reverse else r.qual }) :: res.1,
         seqId :: res.2.1, res.2.2)
      else ((seqId, r) :: res.1, res.2.1, res.2.2)
    | none => (res.1, res.2.1, seqId :: res.2.2)

/-- The log lines printed by `write_output_files` of `rev_comp.py`: a header
with the count of reverse-complemented identifiers, those identifiers
newline-joined, then a header with the count of not-found identifiers and
those identifiers newline-joined. -/
def write_log (idSeqRevComp idNotBlast : List String) : List String :=
  ["*---------- Sequences reverse complemented (" ++ toString idSeqRevComp.length ++ ") : ",
   String.intercalate "\n" idSeqRevComp,
   "\n*---------- Sequences where strand was not find (" ++ toString idNotBlast.length ++ ") : ",
   String.intercalate "\n" idNotBlast]

end RevComp

namespace Rotate

/-- The loop body of `parse_blast_file` of `rotate.py` for one row
`(identifier, position)`: a first row for an identifier creates the entry
`[pos]`, a later row appends `pos` to that identifier's list (in-place
list append, modelled by updating the entry). -/
def parse_blast_step (d : List (String × List Int)) (row : String × Int) :
    List (String × List Int) :=
  match dlookup d row.1 with
  | none => d ++ [(row.1, [row.2])]
  | some entry => d.map (fun p => if p.1 = row.1 then (p.1, entry ++ [row.2]) else p)

/-- Function `parse_blast_file` of `rotate.py`: fold the loop body over the
tab-separated rows, starting from the empty dict. -/
def parse_blast_file (rows : List (String × Int)) : List (String × List Int) :=
  rows.foldl parse_blast_step []

/-- Function `rotate` of `rotate.py`: for each sequence in order, if its identifier
is in the blast dict, sort the recorded positions ascending and slice the
sequence (and, for FASTQ, the quality) with Python slice
`[pos[1] - 1 : pos[2] - 1]`; indexing `pos[1]` or `pos[2]` out of range
raises `IndexError`, modelled as `none` (the whole run fails).  Identifiers
absent from the blast dict are recorded and their entries popped. -/
def rotate : List (String × SeqRec) → List (String × List Int) → String →
    Option (List (String × SeqRec) × List String)
  | [], _, _ => some ([], [])
  | (seqId, r) :: rest, blastDict, file_type =>
    match rotate rest blastDict file_type with
    | none => none
    | some res =>
      match dlookup blastDict seqId with
      | some entry =>
        let pos := List.insertionSort (fun a b => a ≤ b) entry
        match pos[1]?, pos[2]? with
        | some pos2, some pos3 =>
          let start2 : Int := pos2 - 1
          let start3 : Int := pos3 - 1
          some ((seqId, { seq := pySlice r.seq start2 start3,
                          qual := if file_type = "fastq" then pySlice r.qual start2 start3
                                  else r.qual }) :: res.1, res.2)
        | _, _ => none
      | none => some (res.1, seqId :: res.2)

/-- The log lines printed by `write_output_files` of `rotate.py`: a header
with the count of not-found identifiers, then those identifiers
newline-joined. -/
def write_log (idNotBlast : List String) : List String :=
  ["\n*---------- Sequences where position of the gene for rotation was not find ("
     ++ toString idNotBlast.length ++ ") : ",
   String.intercalate "\n" idNotBlast]

end Rotate

namespace Triple

/-- The records written by `write_output_files` of `triple.py`: every
sequence is written as `seq*3`; for FASTQ the quality is written as
`qual*3` (for FASTA no quality is written, modelled by leaving it
unchanged). -/
def write_output_files (fileDict : List (String × SeqRec)) (file_type : String) :
    List (String × SeqRec) :=
  fileDict.map (fun p =>
    (p.1, { seq := p.2.seq ++ p.2.seq ++ p.2.seq,
            qual := if file_type = "fastq" then p.2.qual ++ p.2.qual ++ p.2.qual
                    else p.2.qual }))

end Triple

/-! ### Basic lemmas about dict lookup and Python slicing -/

theorem dlookup_cons {α : Type} (k : String) (v : α) (d : List (String × α)) (sid : String) :
    dlookup ((k, v) :: d) sid = if k = sid then some v else dlookup d sid := by
  by_cases h : k = sid <;> simp [dlookup, List.find?_cons, h]

theorem pyBound_le (len : Nat) (i : Int) : pyBound len i ≤ len := by
  unfold pyBound
  split
  · omega
  · exact min_le_right _ _

theorem pySlice_length (s : List Char) (a b : Int) :
    (pySlice s a b).length = pyBound s.length b - pyBound s.length a := by
  simp [pySlice, List.length_drop, List.length_take,
    Nat.min_eq_left (pyBound_le s.length b)]

theorem pyBound_nonneg (len : Nat) (i : Int) (h0 : 0 ≤ i) (hle : i ≤ (len : Int)) :
    pyBound len i = i.toNat := by
  unfold pyBound
  rw [if_neg (by omega)]
  omega

/-! ### Lemmas about the reverse-complement transform -/

theorem revcomp_fst_eq (fd : List (String × SeqRec)) (bd : List (String × String))
    (ft : String) :
    (RevComp.reverse_complement fd bd ft).1.map Prod.fst
      = (fd.map Prod.fst).filter (fun k => (dlookup bd k).isSome) := by
  induction fd with
  | nil => rfl
  | cons hd tl ih =>
    obtain ⟨sid, r⟩ := hd
    simp only [RevComp.reverse_complement]
    cases h : dlookup bd sid with
    | none => simpa [h] using ih
    | some strand =>
      by_cases hm : strand = "minus" <;> simp [h, hm, ih]

theorem revcomp_notfound_eq (fd : List (String × SeqRec)) (bd : List (String × String))
    (ft : String) :
    (RevComp.reverse_complement fd bd ft).2.2
      = (fd.map Prod.fst).filter (fun k => (dlookup bd k).isNone) := by
  induction fd with
  | nil => rfl
  | cons hd tl ih =>
    obtain ⟨sid, r⟩ := hd
    simp only [RevComp.reverse_complement]
    cases h : dlookup bd sid with
    | none => simpa [h] using ih
    | some strand =>
      by_cases hm : strand = "minus" <;> simp [h, hm, ih]

theorem revcomp_dlookup_minus (fd : List (String × SeqRec)) (bd : List (String × String))
    (ft : String) (sid : String) (r : SeqRec)
    (hnd : (fd.map Prod.fst).Nodup) (hmem : (sid, r) ∈ fd)
    (hminus : dlookup bd sid = some "minus") :
    dlookup (RevComp.reverse_complement fd bd ft).1 sid
      = some { seq := revCompSeq r.seq,
               qual := if ft = "fastq" then r.qual.reverse else r.qual } := by
  induction fd with
  | nil => cases hmem
  | cons hd tl ih =>
    obtain ⟨sid', r'⟩ := hd
    rcases List.mem_cons.mp hmem with heq | htl
    · cases heq
      simp [RevComp.reverse_complement, hminus, dlookup_cons]
    · have hsidmem : sid ∈ tl.map Prod.fst := List.mem_map_of_mem Prod.fst htl
      have hne : sid' ≠ sid := by
        intro hcontra
        rw [hcontra] at hnd
        exact (List.nodup_cons.mp hnd).1 hsidmem
      have ih2 := ih (List.nodup_cons.mp hnd).2 htl
      simp only [RevComp.reverse_complement]
      cases h : dlookup bd sid' with
      | none => exact ih2
      | some strand =>
        by_cases hm : strand = "minus" <;>
          simp [h, hm, dlookup_cons, if_neg hne, ih2]

/-! ### Lemmas about the rotate transform -/

theorem sortPos_length (ps : List Int) :
    (List.insertionSort (fun a b : Int => a ≤ b) ps).length = ps.length :=
  @List.length_insertionSort Int (fun a b : Int => a ≤ b) _ ps

theorem rotate_fst_eq (fd : List (String × SeqRec)) (bd : List (String × List Int))
    (ft : String) (out : List (String × SeqRec)) (nb : List String)
    (hrun : Rotate.rotate fd bd ft = some (out, nb)) :
    out.map Prod.fst = (fd.map Prod.fst).filter (fun k => (dlookup bd k).isSome) := by
  induction fd generalizing out nb with
  | nil =>
    simp only [Rotate.rotate, Option.some.injEq, Prod.mk.injEq] at hrun
    obtain ⟨rfl, rfl⟩ := hrun
    rfl
  | cons hd tl ih =>
    obtain ⟨sid, r⟩ := hd
    cases hr : Rotate.rotate tl bd ft with
    | none =>
      simp only [Rotate.rotate, hr] at hrun
      cases hrun
    | some res =>
      obtain ⟨o, n⟩ := res
      cases hl : dlookup bd sid with
      | none =>
        simp only [Rotate.rotate, hr, hl, Option.some.injEq, Prod.mk.injEq] at hrun
        obtain ⟨rfl, rfl⟩ := hrun
        simpa [hl] using ih o n hr
      | some entry =>
        cases h2 : (List.insertionSort (fun a b : Int => a ≤ b) entry)[1]? with
        | none =>
          simp only [Rotate.rotate, hr, hl, h2] at hrun
          cases hrun
        | some pos2 =>
          cases h3 : (List.insertionSort (fun a b : Int => a ≤ b) entry)[2]? with
          | none =>
            simp only [Rotate.rotate, hr, hl, h2, h3] at hrun
            cases hrun
          | some pos3 =>
            simp only [Rotate.rotate, hr, hl, h2, h3, Option.some.injEq,
              Prod.mk.injEq] at hrun
            obtain ⟨rfl, rfl⟩ := hrun
            simpa [hl] using ih o n hr

theorem rotate_notfound_eq (fd : List (String × SeqRec)) (bd : List (String × List Int))
    (ft : String) (out : List (String × SeqRec)) (nb : List String)
    (hrun : Rotate.rotate fd bd ft = some (out, nb)) :
    nb = (fd.map Prod.fst).filter (fun k => (dlookup bd k).isNone) := by
  induction fd generalizing out nb with
  | nil =>
    simp only [Rotate.rotate, Option.some.injEq, Prod.mk.injEq] at hrun
    obtain ⟨rfl, rfl⟩ := hrun
    rfl
  | cons hd tl ih =>
    obtain ⟨sid, r⟩ := hd
    cases hr : Rotate.rotate tl bd ft with
    | none =>
      simp only [Rotate.rotate, hr] at hrun
      cases hrun
    | some res =>
      obtain ⟨o, n⟩ := res
      cases hl : dlookup bd sid with
      | none =>
        simp only [Rotate.rotate, hr, hl, Option.some.injEq, Prod.mk.injEq] at hrun
        obtain ⟨rfl, rfl⟩ := hrun
        simpa [hl] using ih o n hr
      | some entry =>
        cases h2 : (List.insertionSort (fun a b : Int => a ≤ b) entry)[1]? with
        | none =>
          simp only [Rotate.rotate, hr, hl, h2] at hrun
          cases hrun
        | some pos2 =>
          cases h3 : (List.insertionSort (fun a b : Int => a ≤ b) entry)[2]? with
          | none =>
            simp only [Rotate.rotate, hr, hl, h2, h3] at hrun
            cases hrun
          | some pos3 =>
            simp only [Rotate.rotate, hr, hl, h2, h3, Option.some.injEq,
              Prod.mk.injEq] at hrun
            obtain ⟨rfl, rfl⟩ := hrun
            simpa [hl] using ih o n hr

theorem rotate_dlookup_eq (fd : List (String × SeqRec)) (bd : List (String × List Int))
    (ft : String) (sid : String) (r : SeqRec) (ps : List Int) (pos2 pos3 : Int)
    (out : List (String × SeqRec)) (nb : List String)
    (hnd : (fd.map Prod.fst).Nodup) (hmem : (sid, r) ∈ fd)
    (hps : dlookup bd sid = some ps)
    (h2 : (List.insertionSort (fun a b : Int => a ≤ b) ps)[1]? = some pos2)
    (h3 : (List.insertionSort (fun a b : Int => a ≤ b) ps)[2]? = some pos3)
    (hrun : Rotate.rotate fd bd ft = some (out, nb)) :
    dlookup out sid
      = some { seq := pySlice r.seq (pos2 - 1) (pos3 - 1),
               qual := if ft = "fastq" then pySlice r.qual (pos2 - 1) (pos3 - 1)
                       else r.qual } := by
  induction fd generalizing out nb with
  | nil => cases hmem
  | cons hd tl ih =>
    obtain ⟨sid', r'⟩ := hd
    cases hr : Rotate.rotate tl bd ft with
    | none =>
      simp only [Rotate.rotate, hr] at hrun
      cases hrun
    | some res =>
      obtain ⟨o, n⟩ := res
      rcases List.mem_cons.mp hmem with heq | htl
      · cases heq
        simp only [Rotate.rotate, hr, hps, h2, h3, Option.some.injEq,
          Prod.mk.injEq] at hrun
        obtain ⟨rfl, rfl⟩ := hrun
        rw [dlookup_cons, if_pos rfl]
      · have hsidmem : sid ∈ tl.map Prod.fst := List.mem_map_of_mem Prod.fst htl
        have hne : sid' ≠ sid := by
          intro hcontra
          rw [hcontra] at hnd
          exact (List.nodup_cons.mp hnd).1 hsidmem
        have ih2 := fun o n hr => ih o n (List.nodup_cons.mp hnd).2 htl hr
        cases hl : dlookup bd sid' with
        | none =>
          simp only [Rotate.rotate, hr, hl, Option.some.injEq, Prod.mk.injEq] at hrun
          obtain ⟨rfl, rfl⟩ := hrun
          exact ih2 o n hr
        | some entry =>
          cases h2' : (List.insertionSort (fun a b : Int => a ≤ b) entry)[1]? with
          | none =>
            simp only [Rotate.rotate, hr, hl, h2'] at hrun
            cases hrun
          | some q2 =>
            cases h3' : (List.insertionSort (fun a b : Int => a ≤ b) entry)[2]? with
            | none =>
              simp only [Rotate.rotate, hr, hl, h2', h3'] at hrun
              cases hrun
            | some q3 =>
              simp only [Rotate.rotate, hr, hl, h2', h3', Option.some.injEq,
                Prod.mk.injEq] at hrun
              obtain ⟨rfl, rfl⟩ := hrun
              rw [dlookup_cons, if_neg hne]
              exact ih2 o n hr

theorem rotate_none_of_short (fd : List (String × SeqRec)) (bd : List (String × List Int))
    (ft : String) (sid : String) (r : SeqRec) (ps : List Int)
    (hmem : (sid, r) ∈ fd) (hps : dlookup bd sid = some ps)
    (hshort : ps.length < 3) :
    Rotate.rotate fd bd ft = none := by
  induction fd with
  | nil => cases hmem
  | cons hd tl ih =>
    obtain ⟨sid', r'⟩ := hd
    cases hr : Rotate.rotate tl bd ft with
    | none => simp [Rotate.rotate, hr]
    | some res =>
      obtain ⟨o, n⟩ := res
      rcases List.mem_cons.mp hmem with heq | htl
      · cases heq
        have h3none : (List.insertionSort (fun a b : Int => a ≤ b) ps)[2]? = none := by
          apply List.getElem?_eq_none
          rw [sortPos_length]
          omega
        cases h2 : (List.insertionSort (fun a b : Int => a ≤ b) ps)[1]? with
        | none => simp [Rotate.rotate, hr, hps, h2]
        | some q2 => simp [Rotate.rotate, hr, hps, h2, h3none]
      · rw [ih htl] at hr
        cases hr

theorem rotate_isSome (fd : List (String × SeqRec)) (bd : List (String × List Int))
    (ft : String)
    (hall : ∀ sid ∈ fd.map Prod.fst, ∀ ps, dlookup bd sid = some ps → 3 ≤ ps.length) :
    (Rotate.rotate fd bd ft).isSome := by
  induction fd with
  | nil => simp [Rotate.rotate]
  | cons hd tl ih =>
    obtain ⟨sid, r⟩ := hd
    have ihtl := ih (fun s hs ps hps => hall s (List.mem_cons_of_mem _ hs) ps hps)
    cases hr : Rotate.rotate tl bd ft with
    | none => rw [hr] at ihtl; cases ihtl
    | some res =>
      obtain ⟨o, n⟩ := res
      cases hl : dlookup bd sid with
      | none => simp [Rotate.rotate, hr, hl]
      | some entry =>
        have hlen : 3 ≤ entry.length :=
          hall sid (by simp) entry hl
        have hlen' : 3 ≤ (List.insertionSort (fun a b : Int => a ≤ b) entry).length := by
          rw [sortPos_length]; exact hlen
        obtain ⟨q2, h2⟩ : ∃ x, (List.insertionSort (fun a b : Int => a ≤ b) entry)[1]? = some x :=
          ⟨_, List.getElem?_eq_getElem (by omega)⟩
        obtain ⟨q3, h3⟩ : ∃ x, (List.insertionSort (fun a b : Int => a ≤ b) entry)[2]? = some x :=
          ⟨_, List.getElem?_eq_getElem (by omega)⟩
        simp [Rotate.rotate, hr, hl, h2, h3]

/-! ### Involution of the reverse complement -/

theorem complementChar_comp (c : Char) : complementChar (complementChar c) = c := by
  by_cases hA : c = 'A'
  · subst hA; rfl
  · by_cases hT : c = 'T'
    · subst hT; rfl
    · by_cases hG : c = 'G'
      · subst hG; rfl
      · by_cases hC : c = 'C'
        · subst hC; rfl
        · simp [complementChar, hA, hT, hG, hC]

theorem revCompSeq_revCompSeq (s : List Char) : revCompSeq (revCompSeq s) = s := by
  simp [revCompSeq, List.map_reverse, List.map_map, Function.comp_def, complementChar_comp]

theorem revcomp_twice_eq (fd : List (String × SeqRec)) (bd : List (String × String))
    (ft : String)
    (hminus : ∀ s ∈ fd.map Prod.fst, dlookup bd s = some "minus") :
    (RevComp.reverse_complement (RevComp.reverse_complement fd bd ft).1 bd ft).1 = fd := by
  induction fd with
  | nil => rfl
  | cons hd tl ih =>
    obtain ⟨sid, r⟩ := hd
    have hm : dlookup bd sid = some "minus" := hminus sid (by simp)
    have ihtl := ih (fun s hs => hminus s (by simp [hs]))
    by_cases hft : ft = "fastq"
    · subst hft
      simp [RevComp.reverse_complement, hm, revCompSeq_revCompSeq, ihtl]
    · simp [RevComp.reverse_complement, hm, hft, revCompSeq_revCompSeq, ihtl]

/-! ### Preservation of the sequence/quality length invariant -/

theorem revcomp_qual_length (fd : List (String × SeqRec)) (bd : List (String × String))
    (hlen : ∀ p ∈ fd, (p : String × SeqRec).2.qual.length = p.2.seq.length) :
    ∀ p ∈ (RevComp.reverse_complement fd bd "fastq").1,
      (p : String × SeqRec).2.qual.length = p.2.seq.length := by
  induction fd with
  | nil => simp [RevComp.reverse_complement]
  | cons hd tl ih =>
    obtain ⟨sid, r⟩ := hd
    have hhd := hlen (sid, r) (by simp)
    have ihtl := ih (fun p hp => hlen p (List.mem_cons_of_mem _ hp))
    intro p hp
    cases hl : dlookup bd sid with
    | none =>
      simp only [RevComp.reverse_complement, hl] at hp
      exact ihtl p hp
    | some strand =>
      by_cases hm : strand = "minus"
      · simp only [RevComp.reverse_complement, hl, hm, if_true] at hp
        rcases List.mem_cons.mp hp with heq | hp'
        · subst heq
          simpa [revCompSeq] using hhd
        · exact ihtl p hp'
      · simp only [RevComp.reverse_complement, hl, hm, if_false] at hp
        rcases List.mem_cons.mp hp with heq | hp'
        · subst heq; exact hhd
        · exact ihtl p hp'

theorem rotate_qual_length (fd : List (String × SeqRec)) (bd : List (String × List Int))
    (out : List (String × SeqRec)) (nb : List String)
    (hlen : ∀ p ∈ fd, (p : String × SeqRec).2.qual.length = p.2.seq.length)
    (hrun : Rotate.rotate fd bd "fastq" = some (out, nb)) :
    ∀ p ∈ out, (p : String × SeqRec).2.qual.length = p.2.seq.length := by
  induction fd generalizing out nb with
  | nil =>
    simp only [Rotate.rotate, Option.some.injEq, Prod.mk.injEq] at hrun
    obtain ⟨rfl, rfl⟩ := hrun
    simp
  | cons hd tl ih =>
    obtain ⟨sid, r⟩ := hd
    have hhd := hlen (sid, r) (by simp)
    have ihtl := fun o n hr => ih o n (fun p hp => hlen p (List.mem_cons_of_mem _ hp)) hr
    cases hr : Rotate.rotate tl bd "fastq" with
    | none =>
      simp only [Rotate.rotate, hr] at hrun
      cases hrun
    | some res =>
      obtain ⟨o, n⟩ := res
      cases hl : dlookup bd sid with
      | none =>
        simp only [Rotate.rotate, hr, hl, Option.some.injEq, Prod.mk.injEq] at hrun
        obtain ⟨rfl, rfl⟩ := hrun
        exact ihtl o n hr
      | some entry =>
        cases h2 : (List.insertionSort (fun a b : Int => a ≤ b) entry)[1]? with
        | none =>
          simp only [Rotate.rotate, hr, hl, h2] at hrun
          cases hrun
        | some pos2 =>
          cases h3 : (List.insertionSort (fun a b : Int => a ≤ b) entry)[2]? with
          | none =>
            simp only [Rotate.rotate, hr, hl, h2, h3] at hrun
            cases hrun
          | some pos3 =>
            simp only [Rotate.rotate, hr, hl, h2, h3, Option.some.injEq,
              Prod.mk.injEq] at hrun
            obtain ⟨rfl, rfl⟩ := hrun
            intro p hp
            rcases List.mem_cons.mp hp with heq | hp'
            · subst heq
              have hhd2 : r.qual.length = r.seq.length := hhd
              simp [pySlice_length, hhd2]
            · exact ihtl o n hr p hp'

theorem triple_qual_length (fd : List (String × SeqRec))
    (hlen : ∀ p ∈ fd, (p : String × SeqRec).2.qual.length = p.2.seq.length) :
    ∀ p ∈ Triple.write_output_files fd "fastq",
      (p : String × SeqRec).2.qual.length = p.2.seq.length := by
  intro p hp
  simp only [Triple.write_output_files, List.mem_map] at hp
  obtain ⟨q, hq, rfl⟩ := hp
  have := hlen q hq
  simp [this]

theorem triple_fst_eq (fd : List (String × SeqRec)) (ft : String) :
    (Triple.write_output_files fd ft).map Prod.fst = fd.map Prod.fst := by
  simp [Triple.write_output_files]

/-! ### Characterisation of the rotate pipeline's auxiliary table parser -/

theorem dlookup_append {α : Type} (d e : List (String × α)) (sid : String) :
    dlookup (d ++ e) sid = (dlookup d sid).or (dlookup e sid) := by
  cases h : (d.find? (fun p => p.1 == sid)) with
  | none => simp [dlookup, List.find?_append, h]
  | some q => simp [dlookup, List.find?_append, h]

theorem dlookup_update (d : List (String × List Int)) (k : String) (w : List Int)
    (sid : String) :
    dlookup (d.map (fun p => if p.1 = k then (p.1, w) else p)) sid
      = if sid = k then (dlookup d sid).map (fun _ => w) else dlookup d sid := by
  induction d with
  | nil => by_cases h : sid = k <;> simp [dlookup, h]
  | cons hd tl ih =>
    obtain ⟨k', v'⟩ := hd
    by_cases h1 : k' = k <;> by_cases h2 : k' = sid
    · have h3 : sid = k := h2.symm.trans h1
      simp [dlookup_cons, h1, h2, h3, ih]
    · have h3 : ¬(sid = k) := fun hc => h2 (h1.trans hc.symm)
      have h4 : ¬(k = sid) := fun hc => h2 (h1.trans hc)
      simp [dlookup_cons, h1, h2, h3, h4, ih]
    · have h3 : ¬(sid = k) := fun hc => h1 (h2.trans hc)
      simp [dlookup_cons, h1, h2, h3, ih]
    · simp [dlookup_cons, h1, h2, ih]

theorem parse_blast_foldl_lookup (rows : List (String × Int))
    (d : List (String × List Int)) (sid : String) :
    dlookup (rows.foldl Rotate.parse_blast_step d) sid
      = match dlookup d sid with
        | some entry =>
          some (entry ++ (rows.filter (fun row => row.1 == sid)).map Prod.snd)
        | none =>
          if (rows.filter (fun row => row.1 == sid)).isEmpty then none
          else some ((rows.filter (fun row => row.1 == sid)).map Prod.snd) := by
  induction rows generalizing d with
  | nil => cases h : dlookup d sid <;> simp [h]
  | cons row rows ih =>
    obtain ⟨k, v⟩ := row
    by_cases hk : k = sid
    · subst hk
      cases h : dlookup d k with
      | none =>
        have hstep : dlookup (Rotate.parse_blast_step d (k, v)) k = some [v] := by
          simp only [Rotate.parse_blast_step, h]
          rw [dlookup_append, h]
          simp [dlookup_cons]
        simp only [List.foldl_cons, ih, hstep, h, List.filter_cons,
          beq_self_eq_true, if_true]
        cases hrest : (rows.filter (fun row => row.1 == k)).isEmpty <;>
          simp [List.isEmpty_iff.mp, hrest]
      | some entry =>
        have hstep : dlookup (Rotate.parse_blast_step d (k, v)) k
            = some (entry ++ [v]) := by
          simp only [Rotate.parse_blast_step, h]
          rw [dlookup_update, if_pos rfl, h]
          rfl
        simp only [List.foldl_cons, ih, hstep, h, List.filter_cons,
          beq_self_eq_true, if_true]
        simp
    · have hstep : dlookup (Rotate.parse_blast_step d (k, v)) sid = dlookup d sid := by
        simp only [Rotate.parse_blast_step]
        cases h : dlookup d k with
        | none =>
          rw [dlookup_append]
          have : dlookup [(k, [v])] sid = none := by
            rw [dlookup_cons, if_neg hk]
            rfl
          rw [this]
          cases dlookup d sid <;> rfl
        | some entry =>
          rw [dlookup_update, if_neg (fun hc => hk hc.symm)]
      have hfilter : (((k, v) :: rows).filter (fun row => row.1 == sid))
          = rows.filter (fun row => row.1 == sid) := by
        simp [List.filter_cons, hk]
      simp only [List.foldl_cons, ih, hstep, hfilter]

theorem pyBound_of_nonneg (len : Nat) (i : Int) (h0 : 0 ≤ i) :
    pyBound len i = min i.toNat len := by
  unfold pyBound
  rw [if_neg (by omega)]

/-! ### The specification claims -/

/-- C1: in the reverse-complement pipeline, for every sequence whose
identifier is in the alignment hint table with strand exactly "minus",
the output sequence is the input with each character sent through
`complementChar` (uppercase A↔T, G↔C, every other character unchanged)
and the result reversed; for FASTQ the quality string is reversed but not
complemented. -/
theorem claim_C1_revcomp_minus (fd : List (String × SeqRec)) (bd : List (String × String))
    (ft : String) (sid : String) (r : SeqRec)
    (hnd : (fd.map Prod.fst).Nodup) (hmem : (sid, r) ∈ fd)
    (hminus : dlookup bd sid = some "minus") :
    dlookup (RevComp.reverse_complement fd bd ft).1 sid
      = some { seq := (r.seq.map complementChar).reverse,
               qual := if ft = "fastq" then r.qual.reverse else r.qual } := by
  simpa [revCompSeq] using revcomp_dlookup_minus fd bd ft sid r hnd hmem hminus

/-- C1 witness: input sequence ATGC with hint minus yields GCAT. -/
theorem claim_C1_revcomp_minus_witness :
    dlookup (RevComp.reverse_complement [("s1", ⟨['A', 'T', 'G', 'C'], []⟩)]
        [("s1", "minus")] "fasta").1 "s1"
      = some ⟨['G', 'C', 'A', 'T'], []⟩ := by
  have h := claim_C1_revcomp_minus [("s1", ⟨['A', 'T', 'G', 'C'], []⟩)] [("s1", "minus")]
    "fasta" "s1" ⟨['A', 'T', 'G', 'C'], []⟩ (by decide) (by decide) (by decide)
  exact h.trans (by decide)

/-- C2: in the rotate pipeline, for a sequence whose identifier has at
least 3 recorded positions (expressed through the 2nd and 3rd entries of
the ascending sort existing), when the rotate run succeeds the output
sequence is the half-open substring `[pos2 - 1, pos3 - 1)` of the original
sequence (take/drop form valid since the bounds are in range), and for
FASTQ the quality is sliced over the identical range. -/
theorem claim_C2_rotate_slice (fd : List (String × SeqRec)) (bd : List (String × List Int))
    (ft : String) (sid : String) (r : SeqRec) (ps : List Int) (pos2 pos3 : Int)
    (out : List (String × SeqRec)) (nb : List String)
    (hnd : (fd.map Prod.fst).Nodup) (hmem : (sid, r) ∈ fd)
    (hps : dlookup bd sid = some ps)
    (h2 : (List.insertionSort (fun a b : Int => a ≤ b) ps)[1]? = some pos2)
    (h3 : (List.insertionSort (fun a b : Int => a ≤ b) ps)[2]? = some pos3)
    (h2pos : 1 ≤ pos2) (h23 : pos2 ≤ pos3) (h3le : pos3 ≤ (r.seq.length : Int) + 1)
    (hrun : Rotate.rotate fd bd ft = some (out, nb)) :
    dlookup out sid
      = some { seq := (r.seq.take (pos3 - 1).toNat).drop (pos2 - 1).toNat,
               qual := if ft = "fastq" then pySlice r.qual (pos2 - 1) (pos3 - 1)
                       else r.qual } := by
  have h := rotate_dlookup_eq fd bd ft sid r ps pos2 pos3 out nb hnd hmem hps h2 h3 hrun
  have hb : pyBound r.seq.length (pos3 - 1) = (pos3 - 1).toNat :=
    pyBound_nonneg _ _ (by omega) (by omega)
  have ha : pyBound r.seq.length (pos2 - 1) = (pos2 - 1).toNat :=
    pyBound_nonneg _ _ (by omega) (by omega)
  rw [h]
  simp [pySlice, ha, hb]

/-- C2 witness: positions [5, 12, 9] on a 20-character sequence sort to
[5, 9, 12] and yield the substring with 0-based indices [8, 11). -/
theorem claim_C2_rotate_slice_witness :
    dlookup [("s1", (⟨['i', 'j', 'k'], []⟩ : SeqRec))] "s1"
      = some ⟨['i', 'j', 'k'], []⟩ := by
  have h := claim_C2_rotate_slice
    [("s1", ⟨['a', 'b', 'c', 'd', 'e', 'f', 'g', 'h', 'i', 'j',
              'k', 'l', 'm', 'n', 'o', 'p', 'q', 'r', 's', 't'], []⟩)]
    [("s1", [5, 12, 9])] "fasta" "s1"
    ⟨['a', 'b', 'c', 'd', 'e', 'f', 'g', 'h', 'i', 'j',
      'k', 'l', 'm', 'n', 'o', 'p', 'q', 'r', 's', 't'], []⟩
    [5, 12, 9] 9 12 [("s1", ⟨['i', 'j', 'k'], []⟩)] []
    (by decide) (by decide) (by decide) (by decide) (by decide)
    (by decide) (by decide) (by decide) (by decide)
  exact h.trans (by decide)

/-- C3 counterexample: a sequence present in the position hint table with
only two positions is not dropped-and-logged — the rotate transform fails
with an index error (modelled as `none`), so the run is fatal and produces
no output at all. -/
theorem claim_C3_counterexample :
    Rotate.rotate [("s1", ⟨['A', 'C', 'G', 'T'], []⟩)] [("s1", [5, 9])] "fasta"
      = none := by
  decide

/-- C3 amended: a sequence whose identifier is present in the position
hint table with fewer than 3 recorded positions causes the rotate
transform to fail with an index error (modelled as `none`): the case is
fatal and no output is produced for any sequence.  Only identifiers absent
from the hint table are dropped and logged. -/
theorem claim_C3_insufficient_positions_fatal (fd : List (String × SeqRec))
    (bd : List (String × List Int)) (ft : String) (sid : String) (r : SeqRec)
    (ps : List Int)
    (hmem : (sid, r) ∈ fd) (hps : dlookup bd sid = some ps)
    (hshort : ps.length < 3) :
    Rotate.rotate fd bd ft = none :=
  rotate_none_of_short fd bd ft sid r ps hmem hps hshort

/-- C3 witness: even with another sequence that has three positions, one
sequence with two positions makes the whole rotate run fail. -/
theorem claim_C3_insufficient_positions_fatal_witness :
    Rotate.rotate [("s1", ⟨['A', 'C', 'G', 'T'], []⟩), ("s2", ⟨['A', 'C'], []⟩)]
      [("s1", [1, 2, 3]), ("s2", [5, 9])] "fasta" = none :=
  claim_C3_insufficient_positions_fatal _ _ "fasta" "s2" ⟨['A', 'C'], []⟩ [5, 9]
    (by decide) (by decide) (by decide)

/-- C4: the triple pipeline writes, for every input sequence, the sequence
repeated three times contiguously (and the quality likewise for FASTQ),
and drops no sequence (the written identifiers are exactly the input
identifiers, in order). -/
theorem claim_C4_triple (fd : List (String × SeqRec)) (ft : String) :
    (Triple.write_output_files fd ft).map Prod.fst = fd.map Prod.fst ∧
    ∀ sid r, (sid, r) ∈ fd →
      (sid, { seq := r.seq ++ r.seq ++ r.seq,
              qual := if ft = "fastq" then r.qual ++ r.qual ++ r.qual else r.qual })
        ∈ Triple.write_output_files fd ft := by
  refine ⟨triple_fst_eq fd ft, ?_⟩
  intro sid r hmem
  simp only [Triple.write_output_files, List.mem_map]
  exact ⟨(sid, r), hmem, rfl⟩

/-- C4 witness: input sequence ACG yields ACGACGACG. -/
theorem claim_C4_triple_witness :
    ("s1", (⟨['A', 'C', 'G', 'A', 'C', 'G', 'A', 'C', 'G'], []⟩ : SeqRec))
      ∈ Triple.write_output_files [("s1", ⟨['A', 'C', 'G'], []⟩)] "fasta" := by
  have h := (claim_C4_triple [("s1", ⟨['A', 'C', 'G'], []⟩)] "fasta").2 "s1"
    ⟨['A', 'C', 'G'], []⟩ (by decide)
  simpa using h

/-- C5: the reverse-complement transform is an involution: applying it
twice with every identifier mapped to strand "minus", on sequences over
the alphabet A/T/G/C, returns the original file dict (sequences and, for
FASTQ, quality strings). -/
theorem claim_C5_involution (fd : List (String × SeqRec)) (bd : List (String × String))
    (ft : String)
    (hminus : ∀ s ∈ fd.map Prod.fst, dlookup bd s = some "minus")
    (_halpha : ∀ p ∈ fd, ∀ c ∈ (p : String × SeqRec).2.seq,
        c = 'A' ∨ c = 'T' ∨ c = 'G' ∨ c = 'C') :
    (RevComp.reverse_complement (RevComp.reverse_complement fd bd ft).1 bd ft).1 = fd :=
  revcomp_twice_eq fd bd ft hminus

/-- C5 witness: a FASTQ record over ATGC with a minus hint returns to
itself after two applications. -/
theorem claim_C5_involution_witness :
    (RevComp.reverse_complement (RevComp.reverse_complement
        [("s1", ⟨['A', 'T', 'G', 'C'], ['!', '2', '3', '4']⟩)]
        [("s1", "minus")] "fastq").1
      [("s1", "minus")] "fastq").1
      = [("s1", ⟨['A', 'T', 'G', 'C'], ['!', '2', '3', '4']⟩)] :=
  claim_C5_involution _ _ "fastq" (by decide) (by decide)

/-- C6: if every FASTQ record's quality length equals its sequence length
on input, the same holds for every record in the output of each of the
three transforms (for rotate, whenever the run succeeds). -/
theorem claim_C6_fastq_length (fd : List (String × SeqRec)) (bdS : List (String × String))
    (bdP : List (String × List Int))
    (hlen : ∀ p ∈ fd, (p : String × SeqRec).2.qual.length = p.2.seq.length) :
    (∀ p ∈ (RevComp.reverse_complement fd bdS "fastq").1,
        (p : String × SeqRec).2.qual.length = p.2.seq.length) ∧
    (∀ out nb, Rotate.rotate fd bdP "fastq" = some (out, nb) →
        ∀ p ∈ out, (p : String × SeqRec).2.qual.length = p.2.seq.length) ∧
    (∀ p ∈ Triple.write_output_files fd "fastq",
        (p : String × SeqRec).2.qual.length = p.2.seq.length) :=
  ⟨revcomp_qual_length fd bdS hlen,
   fun out nb hrun => rotate_qual_length fd bdP out nb hlen hrun,
   triple_qual_length fd hlen⟩

/-- C6 witness: the reverse-complemented record of a length-4 FASTQ record
still has quality length equal to sequence length. -/
theorem claim_C6_fastq_length_witness :
    (("s1", (⟨['G', 'C', 'A', 'T'], ['4', '3', '2', '1']⟩ : SeqRec)) :
        String × SeqRec).2.qual.length
      = ("s1", (⟨['G', 'C', 'A', 'T'], ['4', '3', '2', '1']⟩ : SeqRec)).2.seq.length :=
  (claim_C6_fastq_length [("s1", ⟨['A', 'T', 'G', 'C'], ['1', '2', '3', '4']⟩)]
      [("s1", "minus")] [("s1", [1, 2, 3])] (by decide)).1
    ("s1", ⟨['G', 'C', 'A', 'T'], ['4', '3', '2', '1']⟩) (by decide)

/-- C7: an identifier absent from the hint table never appears in the
transformed output of the reverse-complement or rotate pipelines; it is
recorded in the not-found list (which is exactly the absent identifiers in
input order, so its length is the count of such identifiers), and the log
prints that list with its count in the "not find" section. -/
theorem claim_C7_absent_dropped_and_logged (fd : List (String × SeqRec))
    (bdS : List (String × String)) (bdP : List (String × List Int)) (ft : String)
    (sid : String)
    (hmem : sid ∈ fd.map Prod.fst)
    (habsS : dlookup bdS sid = none) (habsP : dlookup bdP sid = none) :
    (sid ∉ (RevComp.reverse_complement fd bdS ft).1.map Prod.fst ∧
     sid ∈ (RevComp.reverse_complement fd bdS ft).2.2 ∧
     (RevComp.reverse_complement fd bdS ft).2.2
       = (fd.map Prod.fst).filter (fun k => (dlookup bdS k).isNone) ∧
     (RevComp.write_log (RevComp.reverse_complement fd bdS ft).2.1
         (RevComp.reverse_complement fd bdS ft).2.2)[2]?
       = some ("\n*---------- Sequences where strand was not find ("
           ++ toString (RevComp.reverse_complement fd bdS ft).2.2.length ++ ") : ") ∧
     (RevComp.write_log (RevComp.reverse_complement fd bdS ft).2.1
         (RevComp.reverse_complement fd bdS ft).2.2)[3]?
       = some (String.intercalate "\n" (RevComp.reverse_complement fd bdS ft).2.2)) ∧
    (∀ out nb, Rotate.rotate fd bdP ft = some (out, nb) →
      sid ∉ out.map Prod.fst ∧ sid ∈ nb ∧
      nb = (fd.map Prod.fst).filter (fun k => (dlookup bdP k).isNone) ∧
      (Rotate.write_log nb)[0]?
        = some ("\n*---------- Sequences where position of the gene for rotation was not find ("
            ++ toString nb.length ++ ") : ") ∧
      (Rotate.write_log nb)[1]? = some (String.intercalate "\n" nb)) := by
  constructor
  · refine ⟨?_, ?_, revcomp_notfound_eq fd bdS ft, rfl, rfl⟩
    · rw [revcomp_fst_eq]
      simp [List.mem_filter, habsS]
    · rw [revcomp_notfound_eq]
      simp [List.mem_filter, habsS, hmem]
  · intro out nb hrun
    refine ⟨?_, ?_, rotate_notfound_eq fd bdP ft out nb hrun, rfl, rfl⟩
    · rw [rotate_fst_eq fd bdP ft out nb hrun]
      simp [List.mem_filter, habsP]
    · rw [rotate_notfound_eq fd bdP ft out nb hrun]
      simp [List.mem_filter, habsP, hmem]

/-- C7 witness: with s2 absent from both hint tables, s2 is missing from
the reverse-complement output but present in its not-found list. -/
theorem claim_C7_absent_dropped_and_logged_witness :
    "s2" ∉ (RevComp.reverse_complement
        [("s1", ⟨['A'], []⟩), ("s2", ⟨['C'], []⟩)] [("s1", "minus")] "fasta").1.map
        Prod.fst ∧
    "s2" ∈ (RevComp.reverse_complement
        [("s1", ⟨['A'], []⟩), ("s2", ⟨['C'], []⟩)] [("s1", "minus")] "fasta").2.2 :=
  have h := claim_C7_absent_dropped_and_logged
    [("s1", ⟨['A'], []⟩), ("s2", ⟨['C'], []⟩)] [("s1", "minus")] [("s1", [1, 2, 3])]
    "fasta" "s2" (by decide) (by decide) (by decide)
  ⟨h.1.1, h.1.2.1⟩

/-- C8: each pipeline preserves the relative input order of the retained
identifiers: the output identifier list is exactly the input identifier
list filtered to the retained ones (all of them, for triple). -/
theorem claim_C8_order_preserved (fd : List (String × SeqRec))
    (bdS : List (String × String)) (bdP : List (String × List Int)) (ft : String) :
    (RevComp.reverse_complement fd bdS ft).1.map Prod.fst
      = (fd.map Prod.fst).filter (fun k => (dlookup bdS k).isSome) ∧
    (∀ out nb, Rotate.rotate fd bdP ft = some (out, nb) →
      out.map Prod.fst = (fd.map Prod.fst).filter (fun k => (dlookup bdP k).isSome)) ∧
    (Triple.write_output_files fd ft).map Prod.fst = fd.map Prod.fst :=
  ⟨revcomp_fst_eq fd bdS ft, fun out nb h => rotate_fst_eq fd bdP ft out nb h,
   triple_fst_eq fd ft⟩

/-- C8 witness: dropping s2 (absent from the hint table) leaves s1 and s3
in input order in the reverse-complement output. -/
theorem claim_C8_order_preserved_witness :
    (RevComp.reverse_complement
        [("s1", ⟨['A'], []⟩), ("s2", ⟨['C'], []⟩), ("s3", ⟨['G'], []⟩)]
        [("s1", "minus"), ("s3", "plus")] "fasta").1.map Prod.fst
      = ["s1", "s3"] := by
  have h := (claim_C8_order_preserved
    [("s1", ⟨['A'], []⟩), ("s2", ⟨['C'], []⟩), ("s3", ⟨['G'], []⟩)]
    [("s1", "minus"), ("s3", "plus")] [("s1", [1, 2, 3])] "fasta").1
  exact h.trans (by decide)

/-- C9 counterexample: two identical rows for one identifier accumulate
the list [5, 5] — the duplicated position value contributes two elements,
so the accumulated positions are not an ordered set. -/
theorem claim_C9_counterexample :
    dlookup (Rotate.parse_blast_file [("s", 5), ("s", 5)]) "s" = some [5, 5] ∧
    ¬ ([5, 5] : List Int).Nodup :=
  ⟨by decide, by decide⟩

/-- C9 amended: in the rotate pipeline's auxiliary table parser, the
positions of an identifier's rows accumulate into a list in row order,
one element per row with duplicates retained (no entry if the identifier
has no rows). -/
theorem claim_C9_parse_accumulates_list (rows : List (String × Int)) (sid : String) :
    dlookup (Rotate.parse_blast_file rows) sid
      = if (rows.filter (fun row => row.1 == sid)).isEmpty then none
        else some ((rows.filter (fun row => row.1 == sid)).map Prod.snd) := by
  have h := parse_blast_foldl_lookup rows [] sid
  simpa [Rotate.parse_blast_file] using h

/-- C10: with at least 3 positions for every hinted identifier, the rotate
transform never fails, and when the positions are all at least 1 the
output record of a hinted identifier is retained with sequence length
`min (pos3 - 1) len - min (pos2 - 1) len` (clamped at 0 by Nat
subtraction), even when the positions exceed the sequence length. -/
theorem claim_C10_slice_total_clamped (fd : List (String × SeqRec))
    (bd : List (String × List Int)) (ft : String)
    (hall : ∀ sid ∈ fd.map Prod.fst, ∀ ps, dlookup bd sid = some ps → 3 ≤ ps.length) :
    (∃ out nb, Rotate.rotate fd bd ft = some (out, nb)) ∧
    ∀ out nb, Rotate.rotate fd bd ft = some (out, nb) →
      ∀ sid r ps pos2 pos3,
        (fd.map Prod.fst).Nodup → (sid, r) ∈ fd → dlookup bd sid = some ps →
        (∀ q ∈ ps, 1 ≤ q) →
        (List.insertionSort (fun a b : Int => a ≤ b) ps)[1]? = some pos2 →
        (List.insertionSort (fun a b : Int => a ≤ b) ps)[2]? = some pos3 →
        ∃ rOut, dlookup out sid = some rOut ∧
          rOut.seq.length
            = min (pos3 - 1).toNat r.seq.length - min (pos2 - 1).toNat r.seq.length := by
  constructor
  · have h := rotate_isSome fd bd ft hall
    cases hrun : Rotate.rotate fd bd ft with
    | none => rw [hrun] at h; cases h
    | some res => exact ⟨res.1, res.2, by simp [hrun]⟩
  · intro out nb hrun sid r ps pos2 pos3 hnd hmem hps hpos h2 h3
    have hdl := rotate_dlookup_eq fd bd ft sid r ps pos2 pos3 out nb hnd hmem hps h2 h3 hrun
    refine ⟨_, hdl, ?_⟩
    have hmem2 : pos2 ∈ ps :=
      (List.mem_insertionSort (fun a b : Int => a ≤ b)).mp (List.getElem?_mem h2)
    have hmem3 : pos3 ∈ ps :=
      (List.mem_insertionSort (fun a b : Int => a ≤ b)).mp (List.getElem?_mem h3)
    have hp2 : 1 ≤ pos2 := hpos pos2 hmem2
    have hp3 : 1 ≤ pos3 := hpos pos3 hmem3
    simp only [pySlice_length, pyBound_of_nonneg _ _ (by omega : (0 : Int) ≤ pos3 - 1),
      pyBound_of_nonneg _ _ (by omega : (0 : Int) ≤ pos2 - 1)]

/-- C10 witness: sequence ACGT (length 4) with positions [2, 3, 10]: the
run succeeds and the record is kept with the clamped slice [2, 9) of a
4-character string, of length min 9 4 - min 2 4 = 2. -/
theorem claim_C10_slice_total_clamped_witness :
    ∃ rOut, dlookup [("s1", (⟨['G', 'T'], []⟩ : SeqRec))] "s1" = some rOut ∧
      rOut.seq.length
        = min ((10 : Int) - 1).toNat (['A', 'C', 'G', 'T'] : List Char).length
            - min ((3 : Int) - 1).toNat (['A', 'C', 'G', 'T'] : List Char).length := by
  have h := (claim_C10_slice_total_clamped [("s1", ⟨['A', 'C', 'G', 'T'], []⟩)]
      [("s1", [2, 3, 10])] "fasta" (by decide)).2
    [("s1", ⟨['G', 'T'], []⟩)] [] (by decide) "s1" ⟨['A', 'C', 'G', 'T'], []⟩
    [2, 3, 10] 3 10 (by decide) (by decide) (by decide) (by decide) (by decide) (by decide)
  exact h

end ViRotator
